import Mathlib

/-!
Verification of the RSA tutorial notebooks (repository `rsa-tutorials`).

This file gives a shallow embedding of the three-stage Rational Speech
Acts pipeline implemented in the repository's notebooks (literal
listener, pragmatic speaker, pragmatic listener), together with its
world model, and proves the specified properties about it.

Modelling conventions:
* NumPy floating-point values are modelled as exact rationals.
* The expression `np.exp(alpha * np.log(x))` with `x > 0` equals
  `x ^ alpha`; the speaker's optimality parameter `alpha` is modelled as
  a natural-number exponent.
* A pandas `df.loc[key]` row access is modelled by `lookupRow`,
  returning `none` where pandas raises a `KeyError` (key absent from
  the index).
* For the claim about IEEE division-by-zero behaviour, a second value
  type `FVal` records the NaN/Inf outcomes of normalizing an all-zero
  row, which exact rational division cannot express.
-/

/-- A world state: a colour attribute, a shape attribute and a canonical
display label, mirroring the `{"color": .., "shape": .., "string": ..}`
dictionaries of the notebook. -/
structure Obj where
  color : String
  shape : String
  string : String
deriving DecidableEq, Repr, Inhabited

/-- The registered world states (`objects` in the notebook). -/
def objects : List Obj :=
  [⟨"blue", "square", "blue square"⟩,
   ⟨"blue", "circle", "blue circle"⟩,
   ⟨"green", "square", "green square"⟩]

/-- The registered utterances (`utterances` in the notebook). -/
def utterances : List String := ["blue", "green", "square", "circle"]

/-- Source `meaning(obj, utt)`: the utterance is literally true of the
object iff it equals the object's colour or its shape. -/
def meaning (obj : Obj) (utt : String) : Bool :=
  (utt == obj.color) || (utt == obj.shape)

/-- One row of `normalize_rows`: divide each entry by the row total
(`matrix / totals[:, np.newaxis]`, restricted to a single row). -/
def normRow (row : List ℚ) : List ℚ :=
  row.map fun x => x / row.sum

/-- Source `normalize_rows(matrix)`: normalize probabilities across rows
to sum to 1 (each row is divided by its own total). -/
def normalize_rows (matrix : List (List ℚ)) : List (List ℚ) :=
  matrix.map normRow

/-- Row access `df.loc[key]` on a table whose index is `labels`: the
first row whose label equals the key, `none` (pandas `KeyError`) when
the key is absent from the index. -/
def lookupRow {α : Type} : List String → List α → String → Option α
  | l :: ls, r :: rs, key => if l == key then some r else lookupRow ls rs key
  | _, _, _ => none

/-- The pre-normalization truth row of the literal listener for one
utterance: entry `j` is 1 if `meaning(objects[j], utt)` holds, else 0
(the inner loop of `literal_listener` filling `all_counts`). -/
def countsRow (objs : List Obj) (utt : String) : List ℚ :=
  objs.map fun curr_obj => if meaning curr_obj utt then 1 else 0

/-- Source `literal_listener(utt)`: build the |utterances| × |objects|
0/1 truth matrix, row-normalize it, and return the full table together
with the row selected by `df.loc[utt]`. -/
def literal_listener (objs : List Obj) (utts : List String) (utt : String) :
    List (List ℚ) × Option (List ℚ) :=
  let all_counts : List (List ℚ) := utts.map fun curr_utt => countsRow objs curr_utt
  let data := normalize_rows all_counts
  (data, lookupRow utts data utt)

/-- NumPy transpose `np.array(...).T` on a rectangular matrix whose rows
have length `ncols`: entry `(j, i)` of the result is entry `(i, j)` of
the input. -/
def transposeMat (matrix : List (List ℚ)) (ncols : ℕ) : List (List ℚ) :=
  (List.range ncols).map fun j => matrix.map fun row => row.getD j 0

/-- The speaker stage's stabilization constant
(`epsilon = 0.000000001` in `pragmatic_speaker`). -/
def epsilonS1 : ℚ := 1 / 1000000000

/-- The pre-normalization matrix `all_vals` of `pragmatic_speaker`: one
row per utterance, whose entries are
`np.exp(alpha * np.log(probs + epsilon)) = (probs + epsilon) ^ alpha`
elementwise over the literal listener's row for that utterance. -/
def speakerVals (objs : List Obj) (utts : List String) (alpha : ℕ) :
    List (List ℚ) :=
  utts.map fun curr_utt =>
    (((literal_listener objs utts curr_utt).2).getD []).map fun p =>
      (p + epsilonS1) ^ alpha

/-- Source `pragmatic_speaker(obj, alpha)`: exponentiate the stabilized
literal-listener probabilities, transpose to a |objects| × |utterances|
matrix, row-normalize, and return the full table together with the row
selected by `df.loc[obj["string"]]`. -/
def pragmatic_speaker (objs : List Obj) (utts : List String) (obj : Obj)
    (alpha : ℕ) : List (List ℚ) × Option (List ℚ) :=
  let data := normalize_rows (transposeMat (speakerVals objs utts alpha) objs.length)
  (data, lookupRow (objs.map Obj.string) data obj.string)

/-- The listener stage's stabilization constant
(`epsilon = 0.0000001` in `pragmatic_listener`). -/
def epsilonL1 : ℚ := 1 / 10000000

/-- The pre-normalization matrix `all_vals` of `pragmatic_listener`: one
row per object, `probs + epsilon` over the pragmatic speaker's row for
that object at the speaker's default `alpha = 1`. -/
def listenerVals (objs : List Obj) (utts : List String) : List (List ℚ) :=
  objs.map fun curr_obj =>
    (((pragmatic_speaker objs utts curr_obj 1).2).getD []).map fun p =>
      p + epsilonL1

/-- Source `pragmatic_listener(utt)`: stabilize the speaker rows,
transpose to a |utterances| × |objects| matrix, row-normalize, and
return the full table together with the row selected by `df.loc[utt]`. -/
def pragmatic_listener (objs : List Obj) (utts : List String) (utt : String) :
    List (List ℚ) × Option (List ℚ) :=
  let data := normalize_rows (transposeMat (listenerVals objs utts) utts.length)
  (data, lookupRow utts data utt)

/-- The literal-listener probability of canonical state `j` given
canonical utterance `i` (entry `j` of the row that
`literal_listener(utterances[i])` returns). -/
def l0prob (i : Fin 4) (j : Fin 3) : ℚ :=
  (((literal_listener objects utterances (utterances.getD i.val "")).2).getD []).getD j.val 0

/-- The pre-normalization pragmatic-speaker weight for canonical
utterance `i` and canonical state `j` (entry `(i, j)` of the speaker's
`all_vals` matrix, before the transpose). -/
def s1val (alpha : ℕ) (i : Fin 4) (j : Fin 3) : ℚ :=
  ((speakerVals objects utterances alpha).getD i.val []).getD j.val 0

/-- The pre-normalization pragmatic-speaker row for canonical state `j`
(row `j` of `np.array(all_vals).T` in `pragmatic_speaker`). -/
def s1prerow (alpha : ℕ) (j : Fin 3) : List ℚ :=
  (transposeMat (speakerVals objects utterances alpha) objects.length).getD j.val []

/-- The pre-normalization pragmatic-listener row for canonical utterance
`i` (row `i` of `np.array(all_vals).T` in `pragmatic_listener`). -/
def l1prerow (i : Fin 4) : List ℚ :=
  (transposeMat (listenerVals objects utterances) utterances.length).getD i.val []

/-- The normalized pragmatic-speaker row returned for canonical state
`j` at optimality `alpha`. -/
def s1row (j : Fin 3) (alpha : ℕ) : List ℚ :=
  ((pragmatic_speaker objects utterances (objects.getD j.val default) alpha).2).getD []

/-- The largest entry of a list of probabilities (0 for the empty
list). -/
def listMax (l : List ℚ) : ℚ :=
  l.foldr max 0

/-- An IEEE-flavoured value: a finite rational, NaN, or +Inf. Used to
express what NumPy's float division produces when a row total is 0. -/
inductive FVal where
  | fin : ℚ → FVal
  | nan : FVal
  | inf : FVal
deriving DecidableEq, Repr

/-- Division of a matrix entry by a row total under IEEE semantics:
`0 / 0` is NaN, `x / 0` with `x ≠ 0` is (signed) infinity, and division
by a non-zero total is exact. -/
def fdiv (x c : ℚ) : FVal :=
  if c = 0 then (if x = 0 then FVal.nan else FVal.inf) else FVal.fin (x / c)

/-- One row of `normalize_rows` under IEEE division semantics. -/
def normRowF (row : List ℚ) : List FVal :=
  row.map fun x => fdiv x row.sum

/-- Source `normalize_rows(matrix)` under IEEE division semantics. -/
def normalize_rows_f (matrix : List (List ℚ)) : List (List FVal) :=
  matrix.map normRowF

/-- Source `literal_listener(utt)` with the row normalization performed
under IEEE division semantics, so that the behaviour on an all-zero
truth row (division by zero) is expressible. -/
def literal_listener_f (objs : List Obj) (utts : List String) (utt : String) :
    List (List FVal) × Option (List FVal) :=
  let all_counts : List (List ℚ) := utts.map fun curr_utt => countsRow objs curr_utt
  let data := normalize_rows_f all_counts
  (data, lookupRow utts data utt)

/-- Positivity of the speaker stage's stabilization constant. -/
theorem eS1_pos : (0:ℚ) < epsilonS1 := by norm_num [epsilonS1]

/-- Helper: a sum of four fractions over their own (non-zero) total is 1. -/
theorem four_div_sum (a b c d : ℚ) (h : a + (b + (c + d)) ≠ 0) :
    a / (a + (b + (c + d))) + (b / (a + (b + (c + d))) + (c / (a + (b + (c + d))) +
      d / (a + (b + (c + d))))) = 1 := by
  field_simp

/-- Helper: a `df.loc` access with a key absent from the index fails. -/
theorem lookupRow_eq_none {α : Type} (labels : List String) (table : List α)
    (key : String) (h : key ∉ labels) : lookupRow labels table key = none := by
  induction labels generalizing table with
  | nil => cases table <;> rfl
  | cons l ls ih =>
    cases table with
    | nil => rfl
    | cons r rs =>
      have hne : ¬(key = l) ∧ key ∉ ls := by
        simpa [not_or] using h
      have hl : (l == key) = false := by
        simp only [beq_eq_false_iff_ne]
        exact fun e => hne.1 e.symm
      simp [lookupRow, hl, ih rs hne.2]

/-- Helper: a `df.loc` access on a table built rowwise from the index list
returns the row built from the key, when the key occurs in the index. -/
theorem lookupRow_map {α : Type} (f : String → α) (labels : List String)
    (key : String) (h : key ∈ labels) :
    lookupRow labels (labels.map f) key = some (f key) := by
  induction labels with
  | nil => cases h
  | cons l ls ih =>
    by_cases hl : l = key
    · subst hl
      simp [lookupRow]
    · have hk : key ∈ ls := by
        rcases List.mem_cons.mp h with h1 | h1
        · exact absurd h1.symm hl
        · exact h1
      have hb : (l == key) = false := by
        simp only [beq_eq_false_iff_ne]
        exact hl
      simp [lookupRow, hb, ih hk]

/-- Helper: softmax-ratio monotonicity in the exponent. If `m` dominates the
four bases (all positive), the share `m ^ a / (b1 ^ a + b2 ^ a + b3 ^ a + b4 ^ a)`
is non-decreasing in the exponent `a`. -/
theorem softmax_share_mono (m b1 b2 b3 b4 : ℚ) (h1 : 0 < b1) (h2 : 0 < b2)
    (h3 : 0 < b3) (h4 : 0 < b4) (hb1 : b1 ≤ m) (hb2 : b2 ≤ m) (hb3 : b3 ≤ m)
    (hb4 : b4 ≤ m) {a c : ℕ} (hac : a ≤ c) :
    m ^ a / (b1 ^ a + (b2 ^ a + (b3 ^ a + b4 ^ a))) ≤
    m ^ c / (b1 ^ c + (b2 ^ c + (b3 ^ c + b4 ^ c))) := by
  have hm : 0 < m := lt_of_lt_of_le h1 hb1
  obtain ⟨k, rfl⟩ := Nat.exists_eq_add_of_le hac
  rw [div_le_div_iff₀ (by positivity) (by positivity)]
  simp only [pow_add]
  calc m ^ a * (b1 ^ a * b1 ^ k + (b2 ^ a * b2 ^ k + (b3 ^ a * b3 ^ k + b4 ^ a * b4 ^ k)))
      = m ^ a * (b1 ^ a * b1 ^ k) + (m ^ a * (b2 ^ a * b2 ^ k) +
          (m ^ a * (b3 ^ a * b3 ^ k) + m ^ a * (b4 ^ a * b4 ^ k))) := by ring
    _ ≤ m ^ a * (b1 ^ a * m ^ k) + (m ^ a * (b2 ^ a * m ^ k) +
          (m ^ a * (b3 ^ a * m ^ k) + m ^ a * (b4 ^ a * m ^ k))) := by gcongr
    _ = m ^ a * m ^ k * (b1 ^ a + (b2 ^ a + (b3 ^ a + b4 ^ a))) := by ring

/-- Helper: the largest entry of a row of the shape `[x, y, x, y]`. -/
theorem listMax_pair (x y : ℚ) (h0 : 0 ≤ y) (hyx : y ≤ x) :
    listMax [x, y, x, y] = x := by
  rw [listMax]
  simp only [List.foldr]
  rw [max_eq_left h0, max_eq_left hyx, max_eq_right hyx, max_self]

/-- Helper: the largest entry of a row of the shape `[v, y, y, x]` with
`y ≤ v ≤ x`. -/
theorem listMax_last (v y x : ℚ) (h0 : 0 ≤ y) (hyv : y ≤ v) (hvx : v ≤ x) :
    listMax [v, y, y, x] = x := by
  rw [listMax]
  simp only [List.foldr]
  rw [max_eq_left (h0.trans (hyv.trans hvx)), max_eq_right (hyv.trans hvx),
    max_eq_right (hyv.trans hvx), max_eq_right hvx]

/-- Helper: the largest entry of a row of the shape `[y, x, v, y]` with
`y ≤ v ≤ x`. -/
theorem listMax_snd (y x v : ℚ) (h0 : 0 ≤ y) (hyv : y ≤ v) (hvx : v ≤ x) :
    listMax [y, x, v, y] = x := by
  rw [listMax]
  simp only [List.foldr]
  rw [max_eq_left h0, max_eq_left hyv, max_eq_left hvx, max_eq_right (hyv.trans hvx)]

/-- C1: for every registered conditioning value whose pre-normalization row
has at least one non-zero entry (every utterance for the literal listener
and the pragmatic listener, every state for the pragmatic speaker at any
alpha), the returned distribution's values sum to exactly 1. -/
theorem row_sum_invariant :
    (∀ i : Fin 4, (countsRow objects (utterances.getD i.val "")).sum ≠ 0 →
      ∃ r, (literal_listener objects utterances (utterances.getD i.val "")).2 = some r ∧
        r.sum = 1) ∧
    (∀ (alpha : ℕ) (j : Fin 3), (s1prerow alpha j).sum ≠ 0 →
      ∃ r, (pragmatic_speaker objects utterances (objects.getD j.val default) alpha).2 = some r ∧
        r.sum = 1) ∧
    (∀ i : Fin 4, (l1prerow i).sum ≠ 0 →
      ∃ r, (pragmatic_listener objects utterances (utterances.getD i.val "")).2 = some r ∧
        r.sum = 1) := by
  have he := eS1_pos
  refine ⟨?_, ?_, ?_⟩
  · intro i _
    fin_cases i <;>
      simp [literal_listener, countsRow, normalize_rows, normRow, lookupRow, meaning,
        objects, utterances] <;> norm_num
  · intro alpha j _
    fin_cases j <;>
      simp [pragmatic_speaker, speakerVals, literal_listener, countsRow, normalize_rows,
        normRow, lookupRow, transposeMat, meaning, objects, utterances, List.range_succ] <;>
      exact four_div_sum _ _ _ _ (by positivity)
  · intro i _
    fin_cases i <;>
      simp [pragmatic_listener, listenerVals, pragmatic_speaker, speakerVals, literal_listener,
        countsRow, normalize_rows, normRow, lookupRow, transposeMat, meaning, objects,
        utterances, epsilonS1, epsilonL1, List.range_succ] <;> norm_num

/-- C1 witness: concrete instances of all three parts of the row-sum
invariant, at utterance index 0, state index 0 and `alpha = 1`. -/
theorem row_sum_invariant_witness :
    (∃ r, (literal_listener objects utterances (utterances.getD 0 "")).2 = some r ∧
      r.sum = 1) ∧
    (∃ r, (pragmatic_speaker objects utterances (objects.getD 0 default) 1).2 = some r ∧
      r.sum = 1) ∧
    (∃ r, (pragmatic_listener objects utterances (utterances.getD 0 "")).2 = some r ∧
      r.sum = 1) := by
  obtain ⟨h1, h2, h3⟩ := row_sum_invariant
  refine ⟨h1 0 ?_, h2 1 0 ?_, h3 0 ?_⟩
  · simp [countsRow, meaning, objects, utterances]
  · have he := eS1_pos
    simp [s1prerow, transposeMat, speakerVals, literal_listener, countsRow, normalize_rows,
      normRow, lookupRow, meaning, objects, utterances, List.range_succ]
    positivity
  · simp [l1prerow, transposeMat, listenerVals, pragmatic_speaker, speakerVals,
      literal_listener, countsRow, normalize_rows, normRow, lookupRow, meaning, objects,
      utterances, epsilonS1, epsilonL1, List.range_succ]
    norm_num

/-- C2: in the pragmatic speaker, the stabilization constant is added to
each literal-listener probability before the (modelled) logarithm is
taken: the argument of the logarithm is always positive, and an entry
whose literal-listener probability is zero gets the strictly positive
pre-normalization weight `epsilon ^ alpha`, which is at most `epsilon`
for every `alpha ≥ 1`. -/
theorem speaker_epsilon_guard : ∀ (alpha : ℕ) (i : Fin 4) (j : Fin 3),
    0 < l0prob i j + epsilonS1 ∧
    s1val alpha i j = (l0prob i j + epsilonS1) ^ alpha ∧
    (l0prob i j = 0 →
      s1val alpha i j = epsilonS1 ^ alpha ∧ 0 < s1val alpha i j ∧
      (1 ≤ alpha → s1val alpha i j ≤ epsilonS1)) := by
  intro alpha i j
  have he := eS1_pos
  fin_cases i <;> fin_cases j <;>
    simp [l0prob, s1val, speakerVals, literal_listener, countsRow, normalize_rows, normRow,
      lookupRow, meaning, objects, utterances] <;>
    first
      | positivity
      | exact ⟨he, pow_pos he alpha, fun h1 =>
          pow_le_of_le_one he.le (by norm_num [epsilonS1]) (by omega)⟩

/-- C2 witness: the utterance "blue" has literal-listener probability 0 on
the state green-square, and its speaker weight at `alpha = 1` is exactly
the stabilization constant: positive and small, not zero. -/
theorem speaker_epsilon_guard_witness :
    l0prob 0 2 = 0 ∧ s1val 1 0 2 = epsilonS1 ^ 1 ∧ 0 < s1val 1 0 2 ∧
    s1val 1 0 2 ≤ epsilonS1 := by
  have h0 : l0prob 0 2 = 0 := by
    simp [l0prob, literal_listener, countsRow, normalize_rows, normRow, lookupRow,
      meaning, objects, utterances]
  obtain ⟨ha, hb, hc⟩ := (speaker_epsilon_guard 1 0 2).2.2 h0
  exact ⟨h0, ha, hb, hc (le_refl 1)⟩

/-- C3: the pragmatic speaker on the blue-square state at `alpha = 1`
returns approximately \x7bblue: 0.5, green: ~0, square: 0.5, circle: ~0\x7d,
where the ~0 entries equal the stabilization epsilon's normalized
residual `epsilon / (1 + 4 * epsilon)` and are strictly positive. -/
theorem speaker_blue_square_exact :
    ∃ w e : ℚ,
      (pragmatic_speaker objects utterances ⟨"blue", "square", "blue square"⟩ 1).2 =
        some [w, e, w, e] ∧
      |w - 1/2| < 1/100000000 ∧ 0 < e ∧ e < 1/100000000 ∧
      e = epsilonS1 / (1 + 4 * epsilonS1) := by
  refine ⟨500000001/1000000004, 1/1000000004, ?_,
    by rw [abs_sub_lt_iff]; constructor <;> norm_num,
    by norm_num, by norm_num, by norm_num [epsilonS1]⟩
  simp [pragmatic_speaker, speakerVals, literal_listener, countsRow, normalize_rows, normRow,
    lookupRow, transposeMat, meaning, objects, utterances, epsilonS1, List.range_succ]
  norm_num

/-- C4: the pragmatic listener on "blue" returns a distribution over the
three canonical states in which blue-square's probability is strictly
greater than blue-circle's, which is strictly greater than
green-square's. -/
theorem listener_blue_ordering :
    ∃ pBS pBC pGS : ℚ,
      (pragmatic_listener objects utterances "blue").2 = some [pBS, pBC, pGS] ∧
      pBS + pBC + pGS = 1 ∧ pBC < pBS ∧ pGS < pBC := by
  refine ⟨468750095937500627500001/781250285937501882500003,
          312500095625000627500001/781250285937501882500003,
          94375000627500001/781250285937501882500003,
          ?_, by norm_num, by norm_num, by norm_num⟩
  simp [pragmatic_listener, listenerVals, pragmatic_speaker, speakerVals, literal_listener,
    countsRow, normalize_rows, normRow, lookupRow, transposeMat, meaning, objects, utterances,
    epsilonS1, epsilonL1, List.range_succ]
  norm_num

/-- C5: in the canonical 3-state/4-utterance world, the literal listener
on "square" returns the distribution \x7bblue-square: 0.5, blue-circle: 0.0,
green-square: 0.5\x7d. -/
theorem literal_listener_square_exact :
    (literal_listener objects utterances "square").2 = some [1/2, 0, 1/2] := by
  simp [literal_listener, countsRow, normalize_rows, normRow, lookupRow, meaning,
    objects, utterances]
  norm_num

/-- C6: for every registered state, the probability mass the pragmatic
speaker assigns to that state's maximum-probability utterance is
non-decreasing as alpha increases from 1 upward. -/
theorem speaker_alpha_monotone : ∀ (j : Fin 3) (a b : ℕ), 1 ≤ a → a ≤ b →
    listMax (s1row j a) ≤ listMax (s1row j b) := by
  intro j a b h1a hab
  have he := eS1_pos
  fin_cases j
  · simp [s1row, pragmatic_speaker, speakerVals, literal_listener, countsRow, normalize_rows,
      normRow, lookupRow, transposeMat, meaning, objects, utterances, List.range_succ]
    rw [listMax_pair, listMax_pair]
    · exact softmax_share_mono _ _ _ _ _ (by positivity) he (by positivity) he
        le_rfl (by norm_num [epsilonS1]) le_rfl (by norm_num [epsilonS1]) hab
    · positivity
    · gcongr; norm_num [epsilonS1]
    · positivity
    · gcongr; norm_num [epsilonS1]
  · simp [s1row, pragmatic_speaker, speakerVals, literal_listener, countsRow, normalize_rows,
      normRow, lookupRow, transposeMat, meaning, objects, utterances, List.range_succ]
    rw [listMax_last, listMax_last]
    · exact softmax_share_mono _ _ _ _ _ (by positivity) he he (by positivity)
        (by norm_num [epsilonS1]) (by norm_num [epsilonS1]) (by norm_num [epsilonS1])
        le_rfl hab
    · positivity
    · gcongr; norm_num [epsilonS1]
    · gcongr; norm_num [epsilonS1]
    · positivity
    · gcongr; norm_num [epsilonS1]
    · gcongr; norm_num [epsilonS1]
  · simp [s1row, pragmatic_speaker, speakerVals, literal_listener, countsRow, normalize_rows,
      normRow, lookupRow, transposeMat, meaning, objects, utterances, List.range_succ]
    rw [listMax_snd, listMax_snd]
    · exact softmax_share_mono _ _ _ _ _ he (by positivity) (by positivity) he
        (by norm_num [epsilonS1]) le_rfl (by norm_num [epsilonS1]) (by norm_num [epsilonS1])
        hab
    · positivity
    · gcongr; norm_num [epsilonS1]
    · gcongr; norm_num [epsilonS1]
    · positivity
    · gcongr; norm_num [epsilonS1]
    · gcongr; norm_num [epsilonS1]

/-- C6 witness: the maximum speaker mass for the blue-square state does
not decrease from `alpha = 1` to `alpha = 2`. -/
theorem speaker_alpha_monotone_witness :
    listMax (s1row 0 1) ≤ listMax (s1row 0 2) :=
  speaker_alpha_monotone 0 1 2 (by norm_num) (by norm_num)

/-- C7: a query key outside the registered sets (an unregistered utterance
for the literal or pragmatic listener, a state whose display string is not
among the registered object strings for the pragmatic speaker) makes the
operation fail (the modelled pandas `KeyError`) instead of returning a
row. -/
theorem invalid_query_key_fails :
    (∀ utt : String, utt ∉ utterances →
      (literal_listener objects utterances utt).2 = none ∧
      (pragmatic_listener objects utterances utt).2 = none) ∧
    (∀ (obj : Obj) (alpha : ℕ), obj.string ∉ objects.map Obj.string →
      (pragmatic_speaker objects utterances obj alpha).2 = none) := by
  constructor
  · intro utt h
    exact ⟨lookupRow_eq_none _ _ _ h, lookupRow_eq_none _ _ _ h⟩
  · intro obj alpha h
    exact lookupRow_eq_none _ _ _ h

/-- C7 witness: querying the unregistered utterance "red", and a state
whose display string "red circle" is unregistered, fails in all three
stages. -/
theorem invalid_query_key_fails_witness :
    (literal_listener objects utterances "red").2 = none ∧
    (pragmatic_listener objects utterances "red").2 = none ∧
    (pragmatic_speaker objects utterances ⟨"red", "circle", "red circle"⟩ 1).2 = none := by
  have h1 := invalid_query_key_fails.1 "red" (by decide)
  have h2 := invalid_query_key_fails.2 ⟨"red", "circle", "red circle"⟩ 1 (by decide)
  exact ⟨h1.1, h1.2, h2⟩

/-- C8: an utterance that is literally true of no registered state has a
truth row summing to 0, and under IEEE division semantics the literal
listener's normalization divides by that zero total and returns a row
whose entries are all NaN — no guard is applied. -/
theorem degenerate_utterance_nan : ∀ (objs : List Obj) (utts : List String) (utt : String),
    utt ∈ utts → (∀ o ∈ objs, meaning o utt = false) →
    (countsRow objs utt).sum = 0 ∧
    (literal_listener_f objs utts utt).2 = some (objs.map fun _ => FVal.nan) := by
  intro objs utts utt hmem hfalse
  have hcounts : countsRow objs utt = objs.map fun _ => (0:ℚ) := by
    unfold countsRow
    exact List.map_congr_left fun o ho => by simp [hfalse o ho]
  have hsum : (countsRow objs utt).sum = 0 := by
    rw [hcounts]
    simp
  refine ⟨hsum, ?_⟩
  show lookupRow utts (normalize_rows_f (utts.map fun u => countsRow objs u)) utt = _
  rw [normalize_rows_f, List.map_map, lookupRow_map _ _ _ hmem]
  rw [Function.comp_apply, normRowF, hsum, hcounts, List.map_map]
  simp only [Option.some.injEq]
  exact List.map_congr_left fun o _ => by simp [fdiv]

/-- C8 witness: adding the utterance "red" (true of no canonical state) to
the registered utterances produces an all-zero truth row and an all-NaN
returned row. -/
theorem degenerate_utterance_nan_witness :
    (countsRow objects "red").sum = 0 ∧
    (literal_listener_f objects (utterances ++ ["red"]) "red").2 =
      some (objects.map fun _ => FVal.nan) :=
  degenerate_utterance_nan objects (utterances ++ ["red"]) "red" (by decide) (by decide)

/-- C9: the full-table component of each stage's return value does not
depend on the query argument; the argument only selects the returned
row. -/
theorem full_table_query_independent :
    (∀ u1 u2 : String, u1 ∈ utterances → u2 ∈ utterances →
      (literal_listener objects utterances u1).1 = (literal_listener objects utterances u2).1 ∧
      (pragmatic_listener objects utterances u1).1 =
        (pragmatic_listener objects utterances u2).1) ∧
    (∀ o1 o2 : Obj, o1 ∈ objects → o2 ∈ objects → ∀ alpha : ℕ,
      (pragmatic_speaker objects utterances o1 alpha).1 =
      (pragmatic_speaker objects utterances o2 alpha).1) :=
  ⟨fun _ _ _ _ => ⟨rfl, rfl⟩, fun _ _ _ _ _ => rfl⟩

/-- C9 witness: the full tables agree between the queries "blue" and
"square", and between the blue-square and blue-circle states at
`alpha = 2`. -/
theorem full_table_query_independent_witness :
    ((literal_listener objects utterances "blue").1 =
      (literal_listener objects utterances "square").1) ∧
    ((pragmatic_listener objects utterances "blue").1 =
      (pragmatic_listener objects utterances "square").1) ∧
    ((pragmatic_speaker objects utterances ⟨"blue", "square", "blue square"⟩ 2).1 =
      (pragmatic_speaker objects utterances ⟨"blue", "circle", "blue circle"⟩ 2).1) := by
  have h1 := full_table_query_independent.1 "blue" "square" (by decide) (by decide)
  have h2 := full_table_query_independent.2 ⟨"blue", "square", "blue square"⟩
    ⟨"blue", "circle", "blue circle"⟩ (by decide) (by decide) 2
  exact ⟨h1.1, h1.2, h2⟩

/-- C10: in the canonical world every utterance is true of some state and
every state satisfies some utterance, no pre-normalization row of any
stage is all-zero (the literal-listener truth rows have non-zero sums, and
the speaker and listener pre-normalization rows have strictly positive
sums at every alpha), and every value the literal listener returns for a
registered query is a finite number under IEEE division semantics. -/
theorem canonical_world_total :
    (∀ u ∈ utterances, ∃ o ∈ objects, meaning o u = true) ∧
    (∀ o ∈ objects, ∃ u ∈ utterances, meaning o u = true) ∧
    (∀ i : Fin 4, (countsRow objects (utterances.getD i.val "")).sum ≠ 0) ∧
    (∀ (alpha : ℕ) (j : Fin 3), 0 < (s1prerow alpha j).sum) ∧
    (∀ i : Fin 4, 0 < (l1prerow i).sum) ∧
    (∀ u ∈ utterances, ∃ r, (literal_listener_f objects utterances u).2 = some r ∧
      ∀ x ∈ r, ∃ q : ℚ, x = FVal.fin q) := by
  have he := eS1_pos
  refine ⟨by decide, by decide, ?_, ?_, ?_, ?_⟩
  · intro i
    fin_cases i <;>
      simp [countsRow, meaning, objects, utterances]
  · intro alpha j
    fin_cases j <;>
      simp [s1prerow, transposeMat, speakerVals, literal_listener, countsRow, normalize_rows,
        normRow, lookupRow, meaning, objects, utterances, List.range_succ] <;>
      positivity
  · intro i
    fin_cases i <;>
      simp [l1prerow, transposeMat, listenerVals, pragmatic_speaker, speakerVals,
        literal_listener, countsRow, normalize_rows, normRow, lookupRow, meaning, objects,
        utterances, epsilonS1, epsilonL1, List.range_succ] <;> norm_num
  · intro u hu
    fin_cases hu <;>
      simp [literal_listener_f, normalize_rows_f, normRowF, fdiv, countsRow, lookupRow,
        meaning, objects, utterances]

/-- C10 witness: concrete instances of every part of the totality claim,
at the utterance "blue", the blue-square state, index 0 and
`alpha = 1`. -/
theorem canonical_world_total_witness :
    (∃ o ∈ objects, meaning o "blue" = true) ∧
    (∃ u ∈ utterances, meaning ⟨"blue", "square", "blue square"⟩ u = true) ∧
    (countsRow objects (utterances.getD 0 "")).sum ≠ 0 ∧
    0 < (s1prerow 1 0).sum ∧
    0 < (l1prerow 0).sum ∧
    (∃ r, (literal_listener_f objects utterances "blue").2 = some r ∧
      ∀ x ∈ r, ∃ q : ℚ, x = FVal.fin q) := by
  obtain ⟨h1, h2, h3, h4, h5, h6⟩ := canonical_world_total
  exact ⟨h1 "blue" (by decide), h2 ⟨"blue", "square", "blue square"⟩ (by decide),
    h3 0, h4 1 0, h5 0, h6 "blue" (by decide)⟩
